import Mathlib

set_option autoImplicit false

deriving instance DecidableEq for Except

/-!
Verification of the Network control-plane component (components/network.py):
topology and address table, routing, relay encapsulation, the dispatch loop,
and the entanglement-swap orchestrator.  Python dict-shaped packets are
embedded as a `Packet` structure with a tagged `Payload`; the networkx
directed graph as an explicit node/edge-list structure; the imperative
dispatch loop as a state-passing function producing a trace of observable
effects, with Python exceptions embedded as `Except` values (an exception
escaping the loop body is an `Except.error` of the whole step; an exception
caught by the loop's handlers is turned into a logged-error effect).
-/

/-! ## Protocol and payload-type tags

Modelled from the spec: the protocol constants live in the protocols module,
which is not part of the analysed source tree; the code relies only on their
distinctness, so they are embedded as distinct naturals. -/

/-- Modelled from the spec: RELAY protocol tag (relay envelope). -/
def RELAY : Nat := 1

/-- Modelled from the spec: REC_EPR protocol tag (the spec calls this
protocol REC_RESOURCE: a request to materialize a pairwise resource). -/
def REC_EPR : Nat := 2

/-- Modelled from the spec: SEND_TELEPORT protocol tag (the spec calls this
SEND_TRANSFER: the forwarding transfer used by the swap orchestrator). -/
def SEND_TELEPORT : Nat := 3

/-- Modelled from the spec: a further protocol tag distinct from the ones the
dispatch loop inspects (classical messaging). -/
def SEND_CLASSICAL : Nat := 4

/-- Modelled from the spec: EPR data-type tag used inside swap payloads. -/
def EPR : Nat := 5

/-- Modelled from the spec: SIGNAL payload-type tag. -/
def SIGNAL : Nat := 10

/-- Modelled from the spec: QUANTUM payload-type tag. -/
def QUANTUM : Nat := 11

/-- Modelled from the spec: CLASSICAL payload-type tag. -/
def CLASSICAL : Nat := 12

/-! ## Packets -/

/-- The protocol-specific body of a packet.  In the Python source a payload is
`None`, a dict such as the resource-id record built by the REC_EPR branch, a
list of qubit dicts (QUANTUM payloads), or a whole nested packet (the payload
of a RELAY envelope, whose fields are inlined in the `pkt` constructor). -/
inductive Payload where
  | none : Payload
  | qid (q_id : String) : Payload
  | quantum (q_ids : List String) : Payload
  | pkt (sender receiver : String) (protocol : Nat) (payload : Payload)
      (payload_type : Nat) (TTL : Option Nat) (route : Option (List String)) : Payload
deriving DecidableEq, Repr

/-- The unit of work on the network queue, mirroring the dict keys used by
components/network.py: sender, receiver, protocol, payload, payload_type,
and the relay-envelope-only fields TTL and route (absent keys are `none`). -/
structure Packet where
  sender : String
  receiver : String
  protocol : Nat
  payload : Payload
  payload_type : Nat
  TTL : Option Nat
  route : Option (List String)
deriving DecidableEq, Repr

/-- View a whole packet as a payload (the nesting used by relay envelopes). -/
def Payload.ofPacket (p : Packet) : Payload :=
  .pkt p.sender p.receiver p.protocol p.payload p.payload_type p.TTL p.route

/-- The TTL field of a payload that is a nested packet (`Option.none` for
payloads that are not packets). -/
def Payload.ttlField : Payload → Option Nat
  | .pkt _ _ _ _ _ ttl _ => ttl
  | _ => Option.none

/-! ## The topology graph

An explicit embedding of the networkx DiGraph as used by the source: a node
list and a weighted edge list.  As in networkx, adding an edge also inserts
its endpoints as nodes, and nodes are never duplicated. -/

/-- Directed graph with weighted edges (node list plus edge-triple list). -/
structure DiGraph where
  nodes : List String
  edges : List (String × String × Nat)
deriving DecidableEq, Repr

/-- The empty graph (a fresh `nx.DiGraph()`). -/
def DiGraph.empty : DiGraph := ⟨[], []⟩

/-- networkx `add_node`: inserts the node unless it is already present. -/
def DiGraph.add_node (g : DiGraph) (v : String) : DiGraph :=
  if v ∈ g.nodes then g else { g with nodes := g.nodes ++ [v] }

/-- networkx `has_edge`: does some edge from `a` to `b` exist (any weight)? -/
def DiGraph.has_edge (g : DiGraph) (a b : String) : Bool :=
  g.edges.any (fun e => e.1 == a && e.2.1 == b)

/-- networkx `add_edges_from [(a, b, {weight := w})]`: appends the edge and,
as networkx does, inserts both endpoints as nodes. -/
def DiGraph.add_edge (g : DiGraph) (a b : String) (w : Nat) : DiGraph :=
  let g' := (g.add_node a).add_node b
  { g' with edges := g'.edges ++ [(a, b, w)] }

/-- The successors of `v`: targets of edges whose source is `v`. -/
def DiGraph.neighbors (g : DiGraph) (v : String) : List String :=
  g.edges.filterMap (fun e => if e.1 == v then some e.2.1 else Option.none)

/-- The edge list with the weights forgotten (used to state absence of
duplicate edges). -/
def DiGraph.pairsOf (g : DiGraph) : List (String × String) :=
  g.edges.map (fun e => (e.1, e.2.1))

/-! ## Hosts

Modelled from the spec: the Host (Peer) component lives outside the analysed
source tree; only the peer-facing contract of section 6 of the spec is
embedded: a peer id, a declared neighbor list, a local store of pairwise
resources `(partner, resourceID)`, and a counter from which fresh resource
ids are minted. -/

/-- Modelled from the spec: a peer with its id, declared neighbors, local
pairwise-resource store, and fresh-id counter. -/
structure Host where
  host_id : String
  connections : List String
  eprIds : List (String × String)
  freshCounter : Nat
deriving DecidableEq, Repr

/-- Modelled from the spec: the fresh resource id the host would mint next. -/
def Host.freshId (h : Host) : String :=
  "q_" ++ toString h.freshCounter

/-- Modelled from the spec: `Peer.getPairwiseResource` as a boolean probe —
does the host locally hold a resource shared with `partner`? -/
def Host.shares_epr (h : Host) (partner : String) : Bool :=
  h.eprIds.any (fun e => e.1 == partner)

/-- Modelled from the spec: `Peer.addPairwiseResource` — file a resource
shared with `partner` under the supplied id, or under a freshly minted id
when none is supplied; returns the updated host and the id used. -/
def Host.add_epr (h : Host) (partner : String) (q_id : Option String) : Host × String :=
  match q_id with
  | some qid => ({ h with eprIds := h.eprIds ++ [(partner, qid)] }, qid)
  | Option.none =>
      ({ h with eprIds := h.eprIds ++ [(partner, h.freshId)],
                freshCounter := h.freshCounter + 1 }, h.freshId)

/-! ## Routing errors -/

/-- The exceptions that can arise while a packet is processed, mirroring the
handlers of `_process_queue`: `nx.NodeNotFound`, the no-path failure of the
routing algorithm, `ValueError`, `KeyError`, and any other exception. -/
inductive NetError where
  | nodeNotFound : NetError
  | noPath : NetError
  | valueError : NetError
  | keyError (msg : String) : NetError
  | generic (msg : String) : NetError
deriving DecidableEq, Repr

/-- The message logged by the except-chain of `_process_queue` for each
exception class (NodeNotFound and ValueError have dedicated handlers; every
other exception falls to the generic handler). -/
def NetError.logMsg : NetError → String
  | .nodeNotFound => "route could not be calculated, node does not exist"
  | .valueError => "route could not be calculated, value error"
  | .noPath => "Error in network: no path"
  | .keyError m => "Error in network: KeyError " ++ m
  | .generic m => "Error in network: " ++ m

/-! ## The Network record -/

/-- The Network singleton's state: the ARP address table (a Python dict
embedded as a replace-on-insert association list), the topology graph, the
pluggable routing algorithm, and the hop-by-hop flag.  The packet queue is
passed explicitly to the queue-processing function. -/
structure Network where
  ARP : List (String × Host)
  network : DiGraph
  routing_algo : DiGraph → String → String → Except NetError (List String)
  use_hop_by_hop : Bool

/-- Python dict assignment on the ARP association list: replace the binding
of the key when present, append it otherwise. -/
def insertARP : List (String × Host) → String → Host → List (String × Host)
  | [], k, v => [(k, v)]
  | (k', v') :: rest, k, v =>
      if k' == k then (k, v) :: rest else (k', v') :: insertARP rest k v

/-- Membership test of a key in the ARP table (Python `host_id in self.ARP`). -/
def memARP (arp : List (String × Host)) (k : String) : Bool :=
  arp.any (fun kv => kv.1 == k)

/-- `get_host`: the host bound to `host_id`, or `none` when unregistered. -/
def Network.get_host (net : Network) (host_id : String) : Option Host :=
  (net.ARP.find? (fun kv => kv.1 == host_id)).map (fun kv => kv.2)

/-- One guarded edge insertion of `_update_network_graph`: add the weight-1
edge from `u` to `v` unless an edge in that direction already exists. -/
def addIfMissing (u v : String) (g : DiGraph) : DiGraph :=
  if g.has_edge u v then g else g.add_edge u v 1

/-- `_update_network_graph`, inner loop body: for one declared connection,
add the forward edge and then the backward edge, each with weight 1 and each
only when no edge in that direction exists yet. -/
def updateEdgesStep (hid : String) (g : DiGraph) (c : String) : DiGraph :=
  addIfMissing c hid (addIfMissing hid c g)

/-- `_update_network_graph`: add the host's node, then walk its declared
connections adding the missing directed edges in both directions. -/
def Network._update_network_graph (g : DiGraph) (host : Host) : DiGraph :=
  host.connections.foldl (updateEdgesStep host.host_id) (g.add_node host.host_id)

/-- `add_host`: register the host in the ARP table and update the graph. -/
def Network.add_host (net : Network) (host : Host) : Network :=
  { net with ARP := insertARP net.ARP host.host_id host,
             network := Network._update_network_graph net.network host }

/-- `remove_host`: delete the host's ARP entry when present; the topology
graph is untouched and an absent entry is silently ignored. -/
def Network.remove_host (net : Network) (host : Host) : Network :=
  if memARP net.ARP host.host_id then
    { net with ARP := net.ARP.filter (fun kv => !(kv.1 == host.host_id)) }
  else net

/-- `shares_epr`: with Python's short-circuiting `and`; dereferencing an
absent host handle is the embedded `Option.none` (an AttributeError). -/
def Network.shares_epr (net : Network) (sender receiver : String) : Option Bool :=
  match net.get_host sender with
  | Option.none => Option.none
  | some hs =>
      if hs.shares_epr receiver then
        match net.get_host receiver with
        | Option.none => Option.none
        | some hr => some (hr.shares_epr sender)
      else some false

/-- `get_route`: delegate to the pluggable routing algorithm. -/
def Network.get_route (net : Network) (source dest : String) : Except NetError (List String) :=
  net.routing_algo net.network source dest

/-! ## The default routing algorithm

The constructor installs `nx.shortest_path`, the unweighted shortest path.
It is embedded as iterative deepening over simple paths: try path lengths in
ascending order and return the first hit, which therefore has minimum length.
`nx.NodeNotFound` is raised when either endpoint is missing from the graph,
and the no-path failure when the target is unreachable. -/

/-- Executable chain predicate: every pair of consecutive entries of the
list is joined by an edge of `g`. -/
def isChain (g : DiGraph) : List String → Bool
  | [] => true
  | [_] => true
  | a :: b :: rest => g.has_edge a b && isChain g (b :: rest)

/-- All simple paths from `source` that use exactly `n` edges, each stored in
reverse order (current endpoint first). -/
def pathsOfLength (g : DiGraph) (source : String) : Nat → List (List String)
  | 0 => [[source]]
  | n + 1 =>
      (pathsOfLength g source n).flatMap (fun p =>
        match p with
        | [] => []
        | v :: _ =>
            (g.neighbors v).filterMap (fun w =>
              if p.contains w then Option.none else some (w :: p)))

/-- Try edge counts `0, 1, ..., fuel - 1` in ascending order and return the
first simple path from `source` that reaches `target`, already un-reversed. -/
def searchUpTo (g : DiGraph) (source target : String) : Nat → Option (List String)
  | 0 => Option.none
  | n + 1 =>
      match searchUpTo g source target n with
      | some r => some r
      | Option.none =>
          ((pathsOfLength g source n).find? (fun p => p.head? == some target)).map
            List.reverse

/-- `nx.shortest_path` on an unweighted graph: an unweighted shortest path
from `source` to `target`; `NodeNotFound` when an endpoint is not a node of
the graph, the no-path error when no simple path exists.  A fuel of
`edges.length + 2` covers every simple path, whose edge count is at most
`edges.length`. -/
def shortest_path (g : DiGraph) (source target : String) : Except NetError (List String) :=
  if source ∈ g.nodes ∧ target ∈ g.nodes then
    match searchUpTo g source target (g.edges.length + 2) with
    | some r => .ok r
    | Option.none => .error NetError.noPath
  else .error NetError.nodeNotFound

/-- `__init__`: fresh state — empty ARP table, empty graph, the default
`nx.shortest_path` routing algorithm, and hop-by-hop operation. -/
def Network.init : Network :=
  { ARP := [], network := DiGraph.empty, routing_algo := shortest_path,
    use_hop_by_hop := true }

/-! ## The dispatch loop

One iteration of `_process_queue` on a dequeued packet is embedded as a
state-passing function that yields a trace of observable effects: each
`rec_packet` hand-off, each backend interaction, each spawned swap task, and
each logged drop.  An exception raised inside the `try` block is an
`Except.error` of the block that the surrounding handlers convert into a
logged-error effect; an exception raised *before* the `try` block (the
QUANTUM prepass of lines 264-265 runs outside it) is an `Except.error` of
the whole iteration, i.e. it escapes and kills the worker thread. -/

/-- An observable effect of one dispatch iteration. -/
inductive Effect where
  | deliver (dest : String) (payload : Payload)
  | createEPR (atHost withPartner q_id : String)
  | spawnSwap (sender receiver : String) (route : List String) (q_id : String)
  | qubitTransfer (fromHost toHost q_id : String)
  | storeQubit (atHost origin q_id : String)
  | logError (msg : String)
deriving DecidableEq, Repr

/-- The default of `_encode`'s ttl argument. -/
def encode_default_ttl : Nat := 10

/-- `_encode`: wrap `payload` (the lower-layer packet) in a RELAY envelope:
sender `route[1]`, protocol RELAY, payload type SIGNAL, the given ttl, the
full route, and as receiver `route[-1]` in hop-by-hop mode or `route[2]` in
source-routed mode. -/
def Network._encode (net : Network) (route : List String) (payload : Packet)
    (ttl : Nat) : Packet :=
  { sender := route[1]!,
    receiver := if net.use_hop_by_hop then route.getLast! else route[2]!,
    protocol := RELAY,
    payload := Payload.ofPacket payload,
    payload_type := SIGNAL,
    TTL := some ttl,
    route := some route }

/-- Route resolution of `_process_queue` (lines 268-274): hop-by-hop mode
recomputes the route; source-routed mode slices the remaining sub-route out
of a RELAY packet's own route field (`full_route[full_route.index(sender):]`,
where a sender absent from the route is a ValueError and an absent route
field a KeyError); any other packet recomputes the route. -/
def computeRoute (net : Network) (p : Packet) : Except NetError (List String) :=
  if net.use_hop_by_hop then net.get_route p.sender p.receiver
  else if p.protocol = RELAY then
    match p.route with
    | some full =>
        match full.findIdx? (fun x => x == p.sender) with
        | some i => .ok (full.drop i)
        | Option.none => .error NetError.valueError
    | Option.none => .error (NetError.keyError "route")
  else net.get_route p.sender p.receiver

/-- The per-hop, per-qubit transfer trace of `_route_quantum_info`: hops in
the outer loop, qubits in the inner loop; on the final hop each qubit is
additionally filed at the destination as received from `route[0]`. -/
def transferEffects (route : List String) (q_ids : List String) : List Effect :=
  (List.range (route.length - 1)).flatMap (fun i =>
    q_ids.flatMap (fun q =>
      Effect.qubitTransfer (route[i]!) (route[i + 1]!) q ::
        (if i = route.length - 2 then [Effect.storeQubit (route[i + 1]!) (route[0]!) q]
         else [])))

/-- `_route_quantum_info`: resolve the sender-to-receiver route and move the
payload's qubits hop by hop.  A payload that is not a qubit list, a routing
failure, or a hop absent from the ARP table is an exception of this call —
and this call happens before the dispatch loop's `try` block. -/
def Network._route_quantum_info (net : Network) (sender receiver : String)
    (payload : Payload) : Except NetError (List Effect) :=
  match payload with
  | Payload.quantum q_ids =>
      match net.get_route sender receiver with
      | .error e => .error e
      | .ok route =>
          if route.length < 2 then .ok []
          else if route.all (fun v => memARP net.ARP v) then
            .ok (transferEffects route q_ids)
          else .error (NetError.keyError "host not in ARP")
  | _ => .error (NetError.generic "payload is not a list of qubits")

/-- Lines 264-265 of `_process_queue`: the QUANTUM prepass, run before the
`try` block whenever the payload type is QUANTUM. -/
def quantumPrepass (net : Network) (p : Packet) : Except NetError (List Effect) :=
  if p.payload_type = QUANTUM then
    net._route_quantum_info p.sender p.receiver p.payload
  else .ok []

/-- The payload inspection of the REC_EPR branch: `packet['payload']` absent
(None) means mint a fresh id; a payload with a resource id reuses it; any
other payload shape makes the `['q_id']` access raise. -/
def qidOfPayload : Payload → Except NetError (Option String)
  | Payload.none => .ok Option.none
  | Payload.qid q => .ok (some q)
  | _ => .error (NetError.keyError "q_id")

/-- The body of the `try` block of `_process_queue` (lines 268-301), given
the dequeued packet: returns the (possibly host-updated) network state and
either the effect trace of the taken branch or the exception it raised.
A route shorter than 2 raises; at route length exactly 2 the packet is
delivered directly (REC_EPR first materializes a pairwise resource at the
sender and rewrites the payload to the resource-id record; RELAY hands over
the inner payload); at length greater than 2 a REC_EPR packet spawns the
entanglement-swap task and anything else is re-encapsulated and handed to
`route[1]`.  Dict lookups `self.ARP[...]` of unregistered hosts raise. -/
def tryBody (net : Network) (p : Packet) : Network × Except NetError (List Effect) :=
  match computeRoute net p with
  | .error e => (net, .error e)
  | .ok route =>
    if route.length < 2 then (net, .error (NetError.generic ""))
    else if route.length = 2 then
      if p.protocol ≠ RELAY then
        if p.protocol = REC_EPR then
          match net.get_host p.sender with
          | Option.none => (net, .error (NetError.generic "NoneType has no attribute cqc"))
          | some hs =>
            match qidOfPayload p.payload with
            | .error e => (net, .error e)
            | .ok qopt =>
              if memARP (insertARP net.ARP p.sender (hs.add_epr p.receiver qopt).1) p.receiver then
                ({ net with ARP := insertARP net.ARP p.sender (hs.add_epr p.receiver qopt).1 },
                 .ok [Effect.createEPR p.sender p.receiver (hs.add_epr p.receiver qopt).2,
                      Effect.deliver p.receiver
                        (Payload.ofPacket
                          { p with payload := Payload.qid (hs.add_epr p.receiver qopt).2 })])
              else ({ net with ARP := insertARP net.ARP p.sender (hs.add_epr p.receiver qopt).1 },
                    .error (NetError.keyError "receiver"))
        else
          if memARP net.ARP p.receiver then
            (net, .ok [Effect.deliver p.receiver (Payload.ofPacket p)])
          else (net, .error (NetError.keyError "receiver"))
      else
        if memARP net.ARP p.receiver then
          (net, .ok [Effect.deliver p.receiver p.payload])
        else (net, .error (NetError.keyError "receiver"))
    else
      if p.protocol = REC_EPR then
        match p.payload with
        | Payload.qid qid =>
            (net, .ok [Effect.spawnSwap p.sender p.receiver route qid])
        | _ => (net, .error (NetError.keyError "q_id"))
      else
        if memARP net.ARP (route[1]!) then
          (net, .ok [Effect.deliver (route[1]!)
                      (Payload.ofPacket (net._encode route p encode_default_ttl))])
        else (net, .error (NetError.keyError "next hop"))

/-- One full iteration of `_process_queue` on a dequeued packet: the QUANTUM
prepass first (whose exceptions escape the iteration), then the `try` block,
whose exceptions the handlers of lines 303-308 turn into a logged error that
drops the packet. -/
def Network._process_packet (net : Network) (p : Packet) :
    Except NetError (Network × List Effect) :=
  match quantumPrepass net p with
  | .error e => .error e
  | .ok qeffs =>
      match tryBody net p with
      | (net', .ok effs) => .ok (net', qeffs ++ effs)
      | (net', .error e) => .ok (net', qeffs ++ [Effect.logError e.logMsg])

/-- The dispatch loop over the queued packets: process them in FIFO order,
accumulating effects, until the queue is empty or an iteration raises — an
uncaught exception terminates the background worker, leaving the remaining
packets unprocessed (reported as the `Option NetError` component). -/
def Network._process_queue (net : Network) :
    List Packet → Network × List Effect × Option NetError
  | [] => (net, [], Option.none)
  | p :: rest =>
      match net._process_packet p with
      | .error e => (net, [], some e)
      | .ok (net', effs) =>
          let r := net'._process_queue rest
          (r.1, effs ++ r.2.1, r.2.2)

/-! ## The entanglement-swap orchestrator

`_entanglement_swap` runs in its own daemon thread; its interaction with the
hosts is embedded as an effect trace. -/

/-- An observable effect of the swap orchestrator. -/
inductive SwapEffect where
  | sendEPR (fromHost toHost q_id : String) (swap_flag : Bool)
  | teleportPacket (atHost nextHost : String) (protocol : Nat)
      (polledFrom origin : String) (payload_type : Nat)
  | refileEPR (atHost oldPartner newPartner : String)
deriving DecidableEq, Repr

/-- `_entanglement_swap`: first one pairwise-EPR creation per consecutive
pair of the route, each tagged with the given `q_id` (line 186-187); then,
for each interior hop, busy-poll that hop's resource shared with `route[0]`
and hand the hop a SEND_TELEPORT/SIGNAL packet addressed to the next hop
carrying it (lines 189-204); finally the sender retrieves its resource
shared with `route[1]` and re-files it as shared with the receiver
(lines 206-207). -/
def Network._entanglement_swap (net : Network) (sender receiver : String)
    (route : List String) (q_id : String) : List SwapEffect :=
  ((List.range (route.length - 1)).map (fun i =>
      SwapEffect.sendEPR (route[i]!) (route[i + 1]!) q_id true)) ++
  ((List.range (route.length - 2)).map (fun i =>
      SwapEffect.teleportPacket (route[i + 1]!) (route[i + 2]!) SEND_TELEPORT
        (route[0]!) sender SIGNAL)) ++
  [SwapEffect.refileEPR sender (route[1]!) receiver]

/-! ## Concrete fixtures shared by witnesses and counterexamples -/

/-- Fixture: peer A of a three-peer line topology A - B - C. -/
def hostA : Host := ⟨"A", ["B"], [], 0⟩

/-- Fixture: peer B of the line topology. -/
def hostB : Host := ⟨"B", ["A", "C"], [], 0⟩

/-- Fixture: peer C of the line topology. -/
def hostC : Host := ⟨"C", ["B"], [], 0⟩

/-- Fixture: the network with the line topology A - B - C registered. -/
def netABC : Network :=
  ((Network.init.add_host hostA).add_host hostB).add_host hostC

/-! ## Helper lemmas: association-list lookups -/

theorem find?_insertARP_self (l : List (String × Host)) (k : String) (v : Host) :
    (insertARP l k v).find? (fun kv => kv.1 == k) = some (k, v) := by
  induction l with
  | nil => simp [insertARP]
  | cons kv rest ih =>
      obtain ⟨k', v'⟩ := kv
      by_cases hk : k' = k
      · subst hk
        simp [insertARP]
      · have hbeq : (k' == k) = false := beq_eq_false_iff_ne.mpr hk
        simp only [insertARP, hbeq, Bool.false_eq_true, if_false]
        rw [List.find?_cons_of_neg _ (by simp [hbeq])]
        exact ih

theorem find?_filter_ne (l : List (String × Host)) (k hid : String) (hne : k ≠ hid) :
    (l.filter (fun kv => !(kv.1 == hid))).find? (fun kv => kv.1 == k)
      = l.find? (fun kv => kv.1 == k) := by
  induction l with
  | nil => rfl
  | cons kv rest ih =>
      obtain ⟨k', v'⟩ := kv
      by_cases hh : k' = hid
      · subst hh
        rw [List.filter_cons_of_neg (by simp)]
        rw [ih, List.find?_cons_of_neg _ (by simp [beq_eq_false_iff_ne.mpr (fun h => hne h.symm)])]
      · rw [List.filter_cons_of_pos (by simp [hh])]
        by_cases hk : k' = k
        · subst hk
          rw [List.find?_cons_of_pos _ (by simp), List.find?_cons_of_pos _ (by simp)]
        · rw [List.find?_cons_of_neg _ (by simp [beq_eq_false_iff_ne.mpr hk]),
              List.find?_cons_of_neg _ (by simp [beq_eq_false_iff_ne.mpr hk])]
          exact ih

/-! ## C2: relay encapsulation -/

/-- C2: for every route of length at least 3, `_encode` yields a packet with
sender `route[1]`, the unmodified inner packet as payload, protocol RELAY,
payload type SIGNAL, the full route, the given ttl (whose default is 10),
and receiver `route[-1]` in hop-by-hop mode or `route[2]` in source-routed
mode. -/
theorem relay_encapsulation_C2 (net : Network) (route : List String)
    (inner : Packet) (ttl : Nat) (h3 : 3 ≤ route.length) :
    (net._encode route inner ttl).sender = route[1]! ∧
    (net._encode route inner ttl).payload = Payload.ofPacket inner ∧
    (net._encode route inner ttl).protocol = RELAY ∧
    (net._encode route inner ttl).payload_type = SIGNAL ∧
    (net._encode route inner ttl).route = some route ∧
    (net._encode route inner ttl).TTL = some ttl ∧
    (net.use_hop_by_hop = true → (net._encode route inner ttl).receiver = route.getLast!) ∧
    (net.use_hop_by_hop = false → (net._encode route inner ttl).receiver = route[2]!) ∧
    encode_default_ttl = 10 := by
  refine ⟨rfl, rfl, rfl, rfl, rfl, rfl, ?_, ?_, rfl⟩
  · intro h
    simp [Network._encode, h]
  · intro h
    simp [Network._encode, h]

theorem relay_encapsulation_C2_witness :
    3 ≤ (["a", "b", "c"] : List String).length ∧
    (Network.init._encode ["a", "b", "c"]
        { sender := "x", receiver := "y", protocol := SEND_CLASSICAL,
          payload := Payload.none, payload_type := CLASSICAL,
          TTL := Option.none, route := Option.none } 7).sender = "b" := by
  have h := relay_encapsulation_C2 Network.init ["a", "b", "c"]
    { sender := "x", receiver := "y", protocol := SEND_CLASSICAL,
      payload := Payload.none, payload_type := CLASSICAL,
      TTL := Option.none, route := Option.none } 7 (by decide)
  refine ⟨by decide, ?_⟩
  rw [h.1]
  rfl

/-! ## C3: the swap chain -/

/-- C3: for a route of N peers the swap orchestrator issues exactly N-1
pairwise creations (one per consecutive pair, all tagged with the given
resource id), then exactly N-2 forwarding SEND_TELEPORT/SIGNAL packets (one
per interior hop, each carrying the resource that hop shares with
`route[0]`, marked with the originator), and finally the sender re-files its
resource shared with `route[1]` as shared with the receiver. -/
theorem swap_chain_C3 (net : Network) (sender receiver : String)
    (route : List String) (q_id : String) (h2 : 2 ≤ route.length) :
    ∃ A B, net._entanglement_swap sender receiver route q_id
        = A ++ B ++ [SwapEffect.refileEPR sender (route[1]!) receiver] ∧
      A.length = route.length - 1 ∧ B.length = route.length - 2 ∧
      (∀ i, (h : i < A.length) →
        A[i] = SwapEffect.sendEPR (route[i]!) (route[i + 1]!) q_id true) ∧
      (∀ i, (h : i < B.length) →
        B[i] = SwapEffect.teleportPacket (route[i + 1]!) (route[i + 2]!)
          SEND_TELEPORT (route[0]!) sender SIGNAL) := by
  refine ⟨_, _, rfl, by simp, by simp, ?_, ?_⟩
  · intro i h
    simp
  · intro i h
    simp

theorem swap_chain_C3_witness :
    2 ≤ (["A", "B", "C"] : List String).length ∧
    ∃ A B, Network.init._entanglement_swap "A" "C" ["A", "B", "C"] "q"
        = A ++ B ++ [SwapEffect.refileEPR "A" ((["A", "B", "C"] : List String)[1]!) "C"] ∧
      A.length = (["A", "B", "C"] : List String).length - 1 ∧
      B.length = (["A", "B", "C"] : List String).length - 2 ∧
      (∀ i, (h : i < A.length) →
        A[i] = SwapEffect.sendEPR ((["A", "B", "C"] : List String)[i]!)
          ((["A", "B", "C"] : List String)[i + 1]!) "q" true) ∧
      (∀ i, (h : i < B.length) →
        B[i] = SwapEffect.teleportPacket ((["A", "B", "C"] : List String)[i + 1]!)
          ((["A", "B", "C"] : List String)[i + 2]!) SEND_TELEPORT
          ((["A", "B", "C"] : List String)[0]!) "A" SIGNAL) :=
  ⟨by decide, swap_chain_C3 Network.init "A" "C" ["A", "B", "C"] "q" (by decide)⟩

/-! ## C7: removal is ARP-only -/

/-- C7: `remove_host` deletes only the ARP entry of the given host: the
topology graph is unchanged, every other ARP entry is unchanged, the entry
itself is gone, and removing an unregistered host is a no-op (and, being a
total function, signals no error). -/
theorem remove_host_frame_C7 (net : Network) (h : Host) :
    (net.remove_host h).network = net.network ∧
    (∀ k, k ≠ h.host_id → (net.remove_host h).get_host k = net.get_host k) ∧
    (net.remove_host h).get_host h.host_id = Option.none ∧
    (net.get_host h.host_id = Option.none → net.remove_host h = net) := by
  refine ⟨?_, ?_, ?_, ?_⟩
  · unfold Network.remove_host
    split <;> rfl
  · intro k hk
    unfold Network.remove_host
    split
    · simp only [Network.get_host]
      rw [find?_filter_ne _ _ _ hk]
    · rfl
  · by_cases hmem : memARP net.ARP h.host_id = true
    · unfold Network.remove_host
      rw [if_pos hmem]
      simp only [Network.get_host]
      rw [List.find?_eq_none.mpr]
      · rfl
      · intro kv hkv
        have hmemf := List.of_mem_filter hkv
        simp only [Bool.not_eq_true'] at hmemf
        simp [hmemf]
    · unfold Network.remove_host
      rw [if_neg hmem]
      simp only [Network.get_host]
      rw [List.find?_eq_none.mpr]
      · rfl
      · intro kv hkv hbeq
        apply hmem
        simp only [memARP, List.any_eq_true]
        exact ⟨kv, hkv, hbeq⟩
  · intro habs
    unfold Network.remove_host
    rw [if_neg]
    intro hmem
    simp only [memARP, List.any_eq_true] at hmem
    obtain ⟨kv, hkv, hbeq⟩ := hmem
    cases hfind : net.ARP.find? (fun kv => kv.1 == h.host_id) with
    | none =>
        exact List.find?_eq_none.mp hfind kv hkv hbeq
    | some kv' =>
        simp [Network.get_host, hfind] at habs

/-! ## Helper lemmas: the topology graph operations -/

theorem add_node_edges (g : DiGraph) (v : String) : (g.add_node v).edges = g.edges := by
  unfold DiGraph.add_node
  split <;> rfl

theorem add_node_mem_self (g : DiGraph) (v : String) : v ∈ (g.add_node v).nodes := by
  unfold DiGraph.add_node
  split
  · assumption
  · simp

theorem add_node_mem_mono (g : DiGraph) (v a : String) (h : a ∈ g.nodes) :
    a ∈ (g.add_node v).nodes := by
  unfold DiGraph.add_node
  split
  · exact h
  · simp [h]

theorem has_edge_add_node (g : DiGraph) (v a b : String) :
    (g.add_node v).has_edge a b = g.has_edge a b := by
  simp [DiGraph.has_edge, add_node_edges]

theorem add_edge_edges (g : DiGraph) (u v : String) (w : Nat) :
    (g.add_edge u v w).edges = g.edges ++ [(u, v, w)] := by
  simp [DiGraph.add_edge, add_node_edges]

theorem has_edge_add_edge (g : DiGraph) (u v a b : String) (w : Nat) :
    (g.add_edge u v w).has_edge a b = true ↔
      g.has_edge a b = true ∨ (u = a ∧ v = b) := by
  simp [DiGraph.has_edge, add_edge_edges, List.any_append]

theorem add_edge_mem_mono (g : DiGraph) (u v a : String) (w : Nat) (h : a ∈ g.nodes) :
    a ∈ (g.add_edge u v w).nodes := by
  simp only [DiGraph.add_edge]
  exact add_node_mem_mono _ _ _ (add_node_mem_mono _ _ _ h)

theorem pairsOf_add_edge (g : DiGraph) (u v : String) (w : Nat) :
    (g.add_edge u v w).pairsOf = g.pairsOf ++ [(u, v)] := by
  simp [DiGraph.pairsOf, add_edge_edges]

theorem has_edge_iff_pairs (g : DiGraph) (a b : String) :
    g.has_edge a b = true ↔ (a, b) ∈ g.pairsOf := by
  simp only [DiGraph.has_edge, DiGraph.pairsOf, List.any_eq_true, List.mem_map,
    Bool.and_eq_true, beq_iff_eq]
  constructor
  · rintro ⟨e, he, h1, h2⟩
    exact ⟨e, he, by simp [h1, h2]⟩
  · rintro ⟨e, he, h⟩
    obtain ⟨h1, h2⟩ := Prod.mk.injEq .. ▸ h
    exact ⟨e, he, by simp [← h1], by simp [← h2]⟩

/-! Properties of one guarded edge insertion. -/

theorem aim_mono (u v a b : String) (g : DiGraph)
    (h : g.has_edge a b = true) : (addIfMissing u v g).has_edge a b = true := by
  unfold addIfMissing
  split
  · exact h
  · exact (has_edge_add_edge ..).mpr (Or.inl h)

theorem aim_self (u v : String) (g : DiGraph) :
    (addIfMissing u v g).has_edge u v = true := by
  unfold addIfMissing
  split
  · assumption
  · exact (has_edge_add_edge ..).mpr (Or.inr ⟨rfl, rfl⟩)

theorem aim_frame (u v a b : String) (g : DiGraph)
    (h : (addIfMissing u v g).has_edge a b = true) :
    g.has_edge a b = true ∨ (a = u ∧ b = v) := by
  revert h
  unfold addIfMissing
  split <;> intro h
  · exact Or.inl h
  · rcases (has_edge_add_edge ..).mp h with h' | ⟨h1, h2⟩
    · exact Or.inl h'
    · exact Or.inr ⟨h1.symm, h2.symm⟩

theorem aim_eq_of_present (u v : String) (g : DiGraph)
    (h : g.has_edge u v = true) : addIfMissing u v g = g := by
  unfold addIfMissing
  rw [if_pos h]

theorem aim_mem_mono (u v a : String) (g : DiGraph) (h : a ∈ g.nodes) :
    a ∈ (addIfMissing u v g).nodes := by
  unfold addIfMissing
  split
  · exact h
  · exact add_edge_mem_mono _ _ _ _ _ h

theorem aim_edges_mono (u v : String) (g : DiGraph) (e : String × String × Nat)
    (h : e ∈ g.edges) : e ∈ (addIfMissing u v g).edges := by
  unfold addIfMissing
  split
  · exact h
  · simp [add_edge_edges, h]

theorem aim_adds (u v : String) (g : DiGraph) (h : g.has_edge u v = false) :
    (u, v, 1) ∈ (addIfMissing u v g).edges := by
  unfold addIfMissing
  rw [if_neg (by simp [h])]
  simp [add_edge_edges]

theorem aim_false_preserved (u v a b : String) (g : DiGraph)
    (h : g.has_edge a b = false) (hne : ¬(a = u ∧ b = v)) :
    (addIfMissing u v g).has_edge a b = false := by
  rcases hfb : (addIfMissing u v g).has_edge a b with _ | _
  · rfl
  · rcases aim_frame u v a b g hfb with h' | h'
    · rw [h] at h'
      exact absurd h' (by simp)
    · exact absurd h' hne

theorem aim_pairs_nodup (u v : String) (g : DiGraph)
    (h : g.pairsOf.Nodup) : (addIfMissing u v g).pairsOf.Nodup := by
  unfold addIfMissing
  split
  · exact h
  · rename_i hmiss
    rw [pairsOf_add_edge]
    refine List.Nodup.append h (by simp) ?_
    simp only [List.disjoint_singleton]
    intro hmem
    exact absurd ((has_edge_iff_pairs ..).mpr hmem) (by simp_all)

/-! Properties of one `updateEdgesStep` iteration, by composition. -/

theorem step_mono (hid c a b : String) (g : DiGraph)
    (h : g.has_edge a b = true) : (updateEdgesStep hid g c).has_edge a b = true :=
  aim_mono _ _ _ _ _ (aim_mono _ _ _ _ _ h)

theorem step_self_fwd (hid c : String) (g : DiGraph) :
    (updateEdgesStep hid g c).has_edge hid c = true :=
  aim_mono _ _ _ _ _ (aim_self _ _ _)

theorem step_self_bwd (hid c : String) (g : DiGraph) :
    (updateEdgesStep hid g c).has_edge c hid = true :=
  aim_self _ _ _

theorem step_frame (hid c a b : String) (g : DiGraph)
    (h : (updateEdgesStep hid g c).has_edge a b = true) :
    g.has_edge a b = true ∨ (a = hid ∧ b = c) ∨ (a = c ∧ b = hid) := by
  rcases aim_frame _ _ _ _ _ h with h' | h'
  · rcases aim_frame _ _ _ _ _ h' with h'' | h''
    · exact Or.inl h''
    · exact Or.inr (Or.inl h'')
  · exact Or.inr (Or.inr h')

theorem step_eq_of_present (hid c : String) (g : DiGraph)
    (h1 : g.has_edge hid c = true) (h2 : g.has_edge c hid = true) :
    updateEdgesStep hid g c = g := by
  unfold updateEdgesStep
  rw [aim_eq_of_present _ _ _ h1, aim_eq_of_present _ _ _ h2]

theorem step_mem_mono (hid c a : String) (g : DiGraph) (h : a ∈ g.nodes) :
    a ∈ (updateEdgesStep hid g c).nodes :=
  aim_mem_mono _ _ _ _ (aim_mem_mono _ _ _ _ h)

theorem step_edges_mono (hid c : String) (g : DiGraph) (e : String × String × Nat)
    (h : e ∈ g.edges) : e ∈ (updateEdgesStep hid g c).edges :=
  aim_edges_mono _ _ _ _ (aim_edges_mono _ _ _ _ h)

theorem step_adds_fwd (hid c : String) (g : DiGraph)
    (h : g.has_edge hid c = false) :
    (hid, c, 1) ∈ (updateEdgesStep hid g c).edges :=
  aim_edges_mono _ _ _ _ (aim_adds _ _ _ h)

theorem step_adds_bwd (hid c : String) (g : DiGraph)
    (h : g.has_edge c hid = false) :
    (c, hid, 1) ∈ (updateEdgesStep hid g c).edges := by
  by_cases hch : c = hid
  · subst hch
    exact aim_edges_mono _ _ _ _ (aim_adds _ _ _ h)
  · have hmiss : (addIfMissing hid c g).has_edge c hid = false :=
      aim_false_preserved _ _ _ _ _ h (by rintro ⟨h1, h2⟩; exact hch h1)
    exact aim_adds _ _ _ hmiss

theorem step_pairs_nodup (hid c : String) (g : DiGraph)
    (h : g.pairsOf.Nodup) : (updateEdgesStep hid g c).pairsOf.Nodup :=
  aim_pairs_nodup _ _ _ (aim_pairs_nodup _ _ _ h)

theorem step_false_fwd (hid c c' : String) (g : DiGraph)
    (h : g.has_edge hid c = false) (hne : c ≠ c') :
    (updateEdgesStep hid g c').has_edge hid c = false := by
  rcases hfb : (updateEdgesStep hid g c').has_edge hid c with _ | _
  · rfl
  · rcases step_frame _ _ _ _ _ hfb with h' | ⟨_, h2⟩ | ⟨h1, h2⟩
    · rw [h] at h'
      exact absurd h' (by simp)
    · exact absurd h2 hne
    · exact absurd (h2.trans h1) hne

theorem step_false_bwd (hid c c' : String) (g : DiGraph)
    (h : g.has_edge c hid = false) (hne : c ≠ c') :
    (updateEdgesStep hid g c').has_edge c hid = false := by
  rcases hfb : (updateEdgesStep hid g c').has_edge c hid with _ | _
  · rfl
  · rcases step_frame _ _ _ _ _ hfb with h' | ⟨h1, h2⟩ | ⟨h1, _⟩
    · rw [h] at h'
      exact absurd h' (by simp)
    · exact absurd (h1.trans h2) hne
    · exact absurd h1 hne

/-! Properties of the whole connection fold of `_update_network_graph`. -/

theorem fold_mono (hid a b : String) (l : List String) :
    ∀ g : DiGraph, g.has_edge a b = true →
      (l.foldl (updateEdgesStep hid) g).has_edge a b = true := by
  induction l with
  | nil => exact fun g h => h
  | cons c rest ih => exact fun g h => ih _ (step_mono _ _ _ _ _ h)

theorem fold_mem_mono (hid a : String) (l : List String) :
    ∀ g : DiGraph, a ∈ g.nodes →
      a ∈ (l.foldl (updateEdgesStep hid) g).nodes := by
  induction l with
  | nil => exact fun g h => h
  | cons c rest ih => exact fun g h => ih _ (step_mem_mono _ _ _ _ h)

theorem fold_edges_mono (hid : String) (e : String × String × Nat) (l : List String) :
    ∀ g : DiGraph, e ∈ g.edges →
      e ∈ (l.foldl (updateEdgesStep hid) g).edges := by
  induction l with
  | nil => exact fun g h => h
  | cons c rest ih => exact fun g h => ih _ (step_edges_mono _ _ _ _ h)

theorem fold_pairs_nodup (hid : String) (l : List String) :
    ∀ g : DiGraph, g.pairsOf.Nodup →
      (l.foldl (updateEdgesStep hid) g).pairsOf.Nodup := by
  induction l with
  | nil => exact fun g h => h
  | cons c rest ih => exact fun g h => ih _ (step_pairs_nodup _ _ _ h)

theorem fold_self (hid c : String) (l : List String) (hc : c ∈ l) :
    ∀ g : DiGraph,
      (l.foldl (updateEdgesStep hid) g).has_edge hid c = true ∧
      (l.foldl (updateEdgesStep hid) g).has_edge c hid = true := by
  induction l with
  | nil => cases hc
  | cons c' rest ih =>
      intro g
      rcases List.mem_cons.mp hc with hh | hh
      · subst hh
        simp only [List.foldl_cons]
        exact ⟨fold_mono _ _ _ _ _ (step_self_fwd _ _ _),
               fold_mono _ _ _ _ _ (step_self_bwd _ _ _)⟩
      · exact ih hh _

theorem fold_eq_of_present (hid : String) (l : List String) :
    ∀ g : DiGraph,
      (∀ c ∈ l, g.has_edge hid c = true ∧ g.has_edge c hid = true) →
      l.foldl (updateEdgesStep hid) g = g := by
  induction l with
  | nil => exact fun g _ => rfl
  | cons c rest ih =>
      intro g hall
      have hc := hall c (by simp)
      simp only [List.foldl_cons, step_eq_of_present _ _ _ hc.1 hc.2]
      exact ih g (fun c' hc' => hall c' (by simp [hc']))

theorem fold_adds_fwd (hid c : String) (l : List String) (hc : c ∈ l) :
    ∀ g : DiGraph, g.has_edge hid c = false →
      (hid, c, 1) ∈ (l.foldl (updateEdgesStep hid) g).edges := by
  induction l with
  | nil => cases hc
  | cons c' rest ih =>
      intro g hmiss
      simp only [List.foldl_cons]
      by_cases hcc : c = c'
      · subst hcc
        exact fold_edges_mono _ _ _ _ (step_adds_fwd _ _ _ hmiss)
      · have hrest : c ∈ rest := by
          rcases List.mem_cons.mp hc with hh | hh
          · exact absurd hh hcc
          · exact hh
        exact ih hrest _ (step_false_fwd _ _ _ _ hmiss hcc)

theorem fold_adds_bwd (hid c : String) (l : List String) (hc : c ∈ l) :
    ∀ g : DiGraph, g.has_edge c hid = false →
      (c, hid, 1) ∈ (l.foldl (updateEdgesStep hid) g).edges := by
  induction l with
  | nil => cases hc
  | cons c' rest ih =>
      intro g hmiss
      simp only [List.foldl_cons]
      by_cases hcc : c = c'
      · subst hcc
        exact fold_edges_mono _ _ _ _ (step_adds_bwd _ _ _ hmiss)
      · have hrest : c ∈ rest := by
          rcases List.mem_cons.mp hc with hh | hh
          · exact absurd hh hcc
          · exact hh
        exact ih hrest _ (step_false_bwd _ _ _ _ hmiss hcc)

theorem add_node_eq_of_mem (g : DiGraph) (v : String) (h : v ∈ g.nodes) :
    g.add_node v = g := by
  unfold DiGraph.add_node
  rw [if_pos h]

theorem pairsOf_add_node (g : DiGraph) (v : String) :
    (g.add_node v).pairsOf = g.pairsOf := by
  simp [DiGraph.pairsOf, add_node_edges]

/-! ## C5: peer registration -/

/-- C5: `add_host` registers the peer in the ARP table, adds its node to the
topology, and for every declared neighbor makes the weight-1 edges exist in
both directions — appending the weight-1 triple exactly when that direction
was missing; re-adding the same host changes nothing, existing edges are
preserved, and no duplicate directed edge is ever created. -/
theorem add_host_C5 (net : Network) (h : Host) :
    (net.add_host h).get_host h.host_id = some h ∧
    h.host_id ∈ (net.add_host h).network.nodes ∧
    (∀ c ∈ h.connections,
        (net.add_host h).network.has_edge h.host_id c = true ∧
        (net.add_host h).network.has_edge c h.host_id = true) ∧
    (∀ c ∈ h.connections, net.network.has_edge h.host_id c = false →
        (h.host_id, c, 1) ∈ (net.add_host h).network.edges) ∧
    (∀ c ∈ h.connections, net.network.has_edge c h.host_id = false →
        (c, h.host_id, 1) ∈ (net.add_host h).network.edges) ∧
    ((net.add_host h).add_host h).network = (net.add_host h).network ∧
    (∀ a b, net.network.has_edge a b = true →
        (net.add_host h).network.has_edge a b = true) ∧
    (net.network.pairsOf.Nodup → (net.add_host h).network.pairsOf.Nodup) := by
  refine ⟨?_, ?_, ?_, ?_, ?_, ?_, ?_, ?_⟩
  · simp [Network.add_host, Network.get_host, find?_insertARP_self]
  · exact fold_mem_mono _ _ _ _ (add_node_mem_self _ _)
  · intro c hc
    exact fold_self h.host_id c h.connections hc _
  · intro c hc hmiss
    exact fold_adds_fwd _ _ _ hc _ (by rw [has_edge_add_node]; exact hmiss)
  · intro c hc hmiss
    exact fold_adds_bwd _ _ _ hc _ (by rw [has_edge_add_node]; exact hmiss)
  · show Network._update_network_graph (net.add_host h).network h = (net.add_host h).network
    have hmem : h.host_id ∈ (net.add_host h).network.nodes :=
      fold_mem_mono _ _ _ _ (add_node_mem_self _ _)
    unfold Network._update_network_graph
    rw [add_node_eq_of_mem _ _ hmem]
    exact fold_eq_of_present _ _ _ (fun c hc => fold_self h.host_id c h.connections hc _)
  · intro a b hab
    exact fold_mono _ _ _ _ _ (by rw [has_edge_add_node]; exact hab)
  · intro hnd
    exact fold_pairs_nodup _ _ _ (by rw [pairsOf_add_node]; exact hnd)

theorem add_host_C5_witness :
    (Network.init.add_host hostB).network.has_edge "B" "A" = true ∧
    (Network.init.add_host hostB).network.has_edge "A" "B" = true ∧
    ((Network.init.add_host hostB).add_host hostB).network
        = (Network.init.add_host hostB).network := by
  have h := add_host_C5 Network.init hostB
  have hA : "A" ∈ hostB.connections := by
    show "A" ∈ ["A", "C"]
    simp
  refine ⟨?_, ?_, h.2.2.2.2.2.1⟩
  · exact (h.2.2.1 "A" hA).1
  · exact (h.2.2.1 "A" hA).2

/-! ## Helper lemmas: effect traces of the dispatch loop -/

/-- The error component of a dispatch iteration (some = escaped exception). -/
def errOf : Except NetError (Network × List Effect) → Option NetError
  | .error e => some e
  | .ok _ => Option.none

/-- The effect trace of a dispatch iteration that did not crash. -/
def effsOf : Except NetError (Network × List Effect) → Option (List Effect)
  | .error _ => Option.none
  | .ok r => some r.2

/-- Is an effect a logged error (a dropped packet)? -/
def Effect.isLogError : Effect → Bool
  | Effect.logError _ => true
  | _ => false

/-- Did the iteration drop the packet (or crash)?  True when the iteration
escaped with an exception or its trace contains a logged error. -/
def droppedResult (r : Except NetError (Network × List Effect)) : Bool :=
  match r with
  | .error _ => true
  | .ok (_, effs) => effs.any Effect.isLogError

theorem transferEffects_shapes (route q_ids : List String) (e : Effect)
    (h : e ∈ transferEffects route q_ids) :
    (∃ a b q, e = Effect.qubitTransfer a b q) ∨ (∃ a o q, e = Effect.storeQubit a o q) := by
  simp only [transferEffects, List.mem_flatMap, List.mem_cons] at h
  obtain ⟨i, _, q, _, hq⟩ := h
  rcases hq with h | h
  · exact Or.inl ⟨_, _, _, h⟩
  · split at h
    · simp only [List.mem_singleton] at h
      exact Or.inr ⟨_, _, _, h⟩
    · cases h

theorem prepass_effect_shapes (net : Network) (p : Packet) (qeffs : List Effect)
    (h : quantumPrepass net p = .ok qeffs) (e : Effect) (he : e ∈ qeffs) :
    (∃ a b q, e = Effect.qubitTransfer a b q) ∨ (∃ a o q, e = Effect.storeQubit a o q) := by
  unfold quantumPrepass at h
  split at h
  · unfold Network._route_quantum_info at h
    split at h
    · split at h
      · exact absurd h (by simp)
      · split at h
        · obtain rfl : ([] : List Effect) = qeffs := by simpa using h
          cases he
        · split at h
          · obtain rfl : transferEffects _ _ = qeffs := by simpa using h
            exact transferEffects_shapes _ _ _ he
          · exact absurd h (by simp)
    · exact absurd h (by simp)
  · obtain rfl : ([] : List Effect) = qeffs := by simpa using h
    cases he

theorem prepass_no_deliver (net : Network) (p : Packet) (qeffs : List Effect)
    (h : quantumPrepass net p = .ok qeffs) (d : String) (pl : Payload) :
    Effect.deliver d pl ∉ qeffs := by
  intro hmem
  rcases prepass_effect_shapes net p qeffs h _ hmem with ⟨a, b, q, hq⟩ | ⟨a, o, q, hq⟩ <;>
    cases hq

theorem prepass_no_logError (net : Network) (p : Packet) (qeffs : List Effect)
    (h : quantumPrepass net p = .ok qeffs) :
    qeffs.any Effect.isLogError = false := by
  rw [List.any_eq_false]
  intro e he
  rcases prepass_effect_shapes net p qeffs h _ he with ⟨a, b, q, hq⟩ | ⟨a, o, q, hq⟩ <;>
    subst hq <;> simp [Effect.isLogError]

/-- The exhaustive shapes of a successful `try`-block trace. -/
theorem tryBody_ok_cases (net : Network) (p : Packet) (net' : Network)
    (effs : List Effect) (h : tryBody net p = (net', .ok effs)) :
    effs = [Effect.deliver p.receiver (Payload.ofPacket p)] ∨
    effs = [Effect.deliver p.receiver p.payload] ∨
    (∃ qid, effs = [Effect.createEPR p.sender p.receiver qid,
        Effect.deliver p.receiver (Payload.ofPacket { p with payload := Payload.qid qid })]) ∨
    (∃ route qid, effs = [Effect.spawnSwap p.sender p.receiver route qid]) ∨
    (∃ route, 2 < route.length ∧
        effs = [Effect.deliver (route[1]!)
          (Payload.ofPacket (net._encode route p encode_default_ttl))]) := by
  unfold tryBody at h
  split at h
  · simp at h
  · rename_i route hroute
    split at h
    · simp at h
    · rename_i hlt
      split at h
      · split at h
        · split at h
          · split at h
            · simp at h
            · split at h
              · simp at h
              · split at h
                · obtain ⟨-, heq⟩ := Prod.mk.injEq .. ▸ h
                  exact Or.inr (Or.inr (Or.inl ⟨_, (by simpa using heq.symm)⟩))
                · simp at h
          · split at h
            · obtain ⟨-, heq⟩ := Prod.mk.injEq .. ▸ h
              exact Or.inl (by simpa using heq.symm)
            · simp at h
        · split at h
          · obtain ⟨-, heq⟩ := Prod.mk.injEq .. ▸ h
            exact Or.inr (Or.inl (by simpa using heq.symm))
          · simp at h
      · rename_i hne2
        split at h
        · split at h
          · obtain ⟨-, heq⟩ := Prod.mk.injEq .. ▸ h
            exact Or.inr (Or.inr (Or.inr (Or.inl ⟨route, _, by simpa using heq.symm⟩)))
          · simp at h
        · split at h
          · obtain ⟨-, heq⟩ := Prod.mk.injEq .. ▸ h
            refine Or.inr (Or.inr (Or.inr (Or.inr ⟨route, by omega, by simpa using heq.symm⟩)))
          · simp at h

theorem tryBody_no_logError (net : Network) (p : Packet) (net' : Network)
    (effs : List Effect) (h : tryBody net p = (net', .ok effs)) :
    effs.any Effect.isLogError = false := by
  rcases tryBody_ok_cases net p net' effs h with h' | h' | ⟨q, h'⟩ | ⟨r, q, h'⟩ | ⟨r, -, h'⟩ <;>
    subst h' <;> simp [Effect.isLogError]

/-- Fixture: a plain classical packet from A to its neighbor B. -/
def goodPkt : Packet :=
  { sender := "A", receiver := "B", protocol := SEND_CLASSICAL,
    payload := Payload.none, payload_type := CLASSICAL,
    TTL := Option.none, route := Option.none }

/-- Fixture: a QUANTUM packet whose sender is not a node of the topology, so
its prepass routing faults before the dispatch loop's `try` block. -/
def badQuantumPkt : Packet :=
  { sender := "X", receiver := "A", protocol := SEND_CLASSICAL,
    payload := Payload.quantum ["q1"], payload_type := QUANTUM,
    TTL := Option.none, route := Option.none }

/-- Fixture: a packet from A to itself, whose computed route has length 1. -/
def selfPkt : Packet :=
  { sender := "A", receiver := "A", protocol := SEND_CLASSICAL,
    payload := Payload.none, payload_type := CLASSICAL,
    TTL := Option.none, route := Option.none }

/-! ## C6: short routes are dropped -/

/-- C6: whenever the computed route has length strictly below 2 (and the
prepass ran without raising), the iteration returns normally with the
prepass trace followed by exactly one logged error: the packet is delivered
to no peer, no relay envelope is produced, and the loop goes on to the rest
of the queue. -/
theorem short_route_drop_C6 (net : Network) (p : Packet) (qeffs : List Effect)
    (route : List String) (hq : quantumPrepass net p = .ok qeffs)
    (hr : computeRoute net p = .ok route) (hlen : route.length < 2) :
    net._process_packet p
        = .ok (net, qeffs ++ [Effect.logError (NetError.generic "").logMsg]) ∧
    (∀ d pl, Effect.deliver d pl ∉
        qeffs ++ [Effect.logError (NetError.generic "").logMsg]) ∧
    (∀ rest, net._process_queue (p :: rest)
        = ((net._process_queue rest).1,
           (qeffs ++ [Effect.logError (NetError.generic "").logMsg])
             ++ (net._process_queue rest).2.1,
           (net._process_queue rest).2.2)) := by
  have htb : tryBody net p = (net, .error (NetError.generic "")) := by
    simp only [tryBody, hr]
    rw [if_pos hlen]
  have hpp : net._process_packet p
      = .ok (net, qeffs ++ [Effect.logError (NetError.generic "").logMsg]) := by
    simp only [Network._process_packet, hq, htb]
  refine ⟨hpp, ?_, ?_⟩
  · intro d pl hmem
    rcases List.mem_append.mp hmem with hm | hm
    · exact prepass_no_deliver net p qeffs hq d pl hm
    · simp at hm
  · intro rest
    simp only [Network._process_queue, hpp]

theorem short_route_drop_C6_witness :
    netABC._process_packet selfPkt
      = .ok (netABC, [] ++ [Effect.logError (NetError.generic "").logMsg]) :=
  (short_route_drop_C6 netABC selfPkt [] ["A"] (by decide) (by decide) (by decide)).1

/-! ## C1: the error boundary of the dispatch loop -/

/-- C1 counterexample: the QUANTUM prepass runs before the `try` block, so a
routing fault raised while moving a QUANTUM payload escapes the iteration
(an `Except.error`, not a logged drop) and terminates the queue processing:
enqueued after the faulting packet, a perfectly deliverable packet is never
processed.  This refutes the claim that every error raised while processing
a dequeued packet — including faults while routing a QUANTUM payload — is
caught inside the loop. -/
theorem dispatch_errors_C1_counterexample :
    errOf (netABC._process_packet badQuantumPkt) = some NetError.nodeNotFound ∧
    effsOf (netABC._process_packet goodPkt)
        = some [Effect.deliver "B" (Payload.ofPacket goodPkt)] ∧
    (netABC._process_queue [badQuantumPkt, goodPkt]).2
        = ([], some NetError.nodeNotFound) := by
  refine ⟨by decide, by decide, by decide⟩

/-- C1 amended: every exception raised inside the dispatch `try` block is
caught, logged, and resolved by dropping only that packet, and the worker
goes on with the remaining queue; however, the QUANTUM prepass runs before
the `try` block, so only packets whose payload type is not QUANTUM are
guaranteed to never escape the iteration — a fault raised while routing a
QUANTUM payload propagates and terminates the background worker. -/
theorem dispatch_errors_C1_amended (net : Network) (p : Packet)
    (hq : p.payload_type ≠ QUANTUM) :
    (∃ net' effs, net._process_packet p = .ok (net', effs)) ∧
    (∀ net'' e, tryBody net p = (net'', .error e) →
        net._process_packet p = .ok (net'', [Effect.logError e.logMsg])) ∧
    (∀ rest net' effs, net._process_packet p = .ok (net', effs) →
        net._process_queue (p :: rest)
          = ((net'._process_queue rest).1, effs ++ (net'._process_queue rest).2.1,
             (net'._process_queue rest).2.2)) := by
  have hpre : quantumPrepass net p = .ok [] := by
    unfold quantumPrepass
    rw [if_neg hq]
  refine ⟨?_, ?_, ?_⟩
  · rcases htb : tryBody net p with ⟨net', res⟩
    cases res with
    | ok effs =>
        exact ⟨net', [] ++ effs, by simp only [Network._process_packet, hpre, htb]⟩
    | error e =>
        exact ⟨net', [] ++ [Effect.logError e.logMsg],
               by simp only [Network._process_packet, hpre, htb]⟩
  · intro net'' e htb
    simp only [Network._process_packet, hpre, htb, List.nil_append]
  · intro rest net' effs hok
    simp only [Network._process_queue, hok]

theorem dispatch_errors_C1_amended_witness :
    ∃ net' effs, netABC._process_packet goodPkt = Except.ok (net', effs) :=
  (dispatch_errors_C1_amended netABC goodPkt (by decide)).1

theorem memARP_insert (A : List (String × Host)) (k r : String) (v : Host)
    (h : memARP A r = true) : memARP (insertARP A k v) r = true := by
  induction A with
  | nil => simp [memARP] at h
  | cons kv rest ih =>
      obtain ⟨k', v'⟩ := kv
      by_cases hk : k' = k
      · subst hk
        simp only [insertARP, beq_self_eq_true, if_true]
        simp only [memARP, List.any_cons] at h ⊢
        exact h
      · have hbeq : (k' == k) = false := beq_eq_false_iff_ne.mpr hk
        simp only [insertARP, hbeq, Bool.false_eq_true, if_false]
        simp only [memARP, List.any_cons] at h ⊢
        rcases Bool.or_eq_true_iff.mp h with h1 | h2
        · exact Bool.or_eq_true_iff.mpr (Or.inl h1)
        · exact Bool.or_eq_true_iff.mpr (Or.inr (ih h2))

/-! ## C4: the REC_EPR direct branch -/

/-- Fixture: a REC_EPR (spec: REC_RESOURCE) request from A to its direct
neighbor B, with no payload. -/
def recEprPkt : Packet :=
  { sender := "A", receiver := "B", protocol := REC_EPR,
    payload := Payload.none, payload_type := SIGNAL,
    TTL := Option.none, route := Option.none }

/-- C4: a dequeued REC_EPR packet whose route has length exactly 2 makes the
sender peer materialize one pairwise resource with the receiver, tagged with
the payload's resource id when one is present and a freshly minted id
otherwise; the payload is replaced by a record holding only that id, and the
modified packet is handed to the receiver peer. -/
theorem rec_epr_direct_C4 (net : Network) (p : Packet) (hs : Host)
    (route : List String) (qopt : Option String)
    (hqt : p.payload_type ≠ QUANTUM)
    (hpr : p.protocol = REC_EPR)
    (hroute : computeRoute net p = .ok route)
    (hlen : route.length = 2)
    (hhs : net.get_host p.sender = some hs)
    (hpay : qidOfPayload p.payload = .ok qopt)
    (hrecv : memARP net.ARP p.receiver = true) :
    net._process_packet p
      = .ok ({ net with ARP := insertARP net.ARP p.sender (hs.add_epr p.receiver qopt).1 },
             [Effect.createEPR p.sender p.receiver (hs.add_epr p.receiver qopt).2,
              Effect.deliver p.receiver
                (Payload.ofPacket
                  { p with payload := Payload.qid (hs.add_epr p.receiver qopt).2 })]) ∧
    ((hs.add_epr p.receiver qopt).1).eprIds
        = hs.eprIds ++ [(p.receiver, (hs.add_epr p.receiver qopt).2)] ∧
    (p.payload = Payload.none → (hs.add_epr p.receiver qopt).2 = hs.freshId) ∧
    (∀ q, p.payload = Payload.qid q → (hs.add_epr p.receiver qopt).2 = q) := by
  have hpre : quantumPrepass net p = .ok [] := by
    unfold quantumPrepass
    rw [if_neg hqt]
  have hne : p.protocol ≠ RELAY := by
    rw [hpr]
    decide
  have hrecv' :
      memARP (insertARP net.ARP p.sender (hs.add_epr p.receiver qopt).1) p.receiver
        = true := memARP_insert _ _ _ _ hrecv
  have htb : tryBody net p
      = ({ net with ARP := insertARP net.ARP p.sender (hs.add_epr p.receiver qopt).1 },
         .ok [Effect.createEPR p.sender p.receiver (hs.add_epr p.receiver qopt).2,
              Effect.deliver p.receiver
                (Payload.ofPacket
                  { p with payload := Payload.qid (hs.add_epr p.receiver qopt).2 })]) := by
    simp only [tryBody, hroute]
    rw [if_neg (show ¬route.length < 2 by omega)]
    rw [if_pos hlen]
    rw [if_pos hne]
    rw [if_pos hpr]
    simp only [hhs, hpay]
    rw [if_pos hrecv']
  refine ⟨?_, ?_, ?_, ?_⟩
  · simp only [Network._process_packet, hpre, htb, List.nil_append]
  · cases qopt <;> simp [Host.add_epr]
  · intro hnone
    rw [hnone] at hpay
    simp only [qidOfPayload, Except.ok.injEq] at hpay
    subst hpay
    simp [Host.add_epr]
  · intro q hq
    rw [hq] at hpay
    simp only [qidOfPayload, Except.ok.injEq] at hpay
    subst hpay
    simp [Host.add_epr]

theorem rec_epr_direct_C4_witness :
    netABC._process_packet recEprPkt
      = Except.ok
          ({ netABC with ARP := insertARP netABC.ARP "A" (hostA.add_epr "B" Option.none).1 },
           [Effect.createEPR "A" "B" (hostA.add_epr "B" Option.none).2,
            Effect.deliver "B"
              (Payload.ofPacket
                { recEprPkt with payload := Payload.qid (hostA.add_epr "B" Option.none).2 })]) :=
  (rec_epr_direct_C4 netABC recEprPkt hostA ["A", "B"] Option.none (by decide)
    (by decide) (by decide) (by decide) (by decide) (by decide) (by decide)).1

/-! ## C8: route validity of the default routing algorithm -/

/-- The edge relation of the topology graph, as a proposition. -/
def edgeR (g : DiGraph) (a b : String) : Prop := g.has_edge a b = true

theorem isChain_iff (g : DiGraph) : ∀ l : List String,
    isChain g l = true ↔ List.Chain' (edgeR g) l := by
  intro l
  induction l with
  | nil => simp [isChain]
  | cons a l ih =>
      cases l with
      | nil => simp [isChain]
      | cons b rest =>
          rw [isChain, Bool.and_eq_true, List.chain'_cons, ih]
          exact and_congr_left (fun _ => Iff.rfl)

theorem mem_neighbors (g : DiGraph) (v w : String) :
    w ∈ g.neighbors v ↔ g.has_edge v w = true := by
  simp only [DiGraph.neighbors, List.mem_filterMap, DiGraph.has_edge,
    List.any_eq_true, Bool.and_eq_true, beq_iff_eq]
  constructor
  · rintro ⟨e, he, hcond⟩
    by_cases hev : e.1 = v
    · rw [if_pos hev] at hcond
      injection hcond with hcond
      exact ⟨e, he, hev, hcond⟩
    · rw [if_neg hev] at hcond
      cases hcond
  · rintro ⟨e, he, h1, h2⟩
    exact ⟨e, he, by rw [if_pos (by simpa using h1)]; exact congrArg some h2⟩

/-- The invariant of the reversed paths explored by the search: nonempty,
rooted at the source, and a chain when read forwards. -/
def RevPath (g : DiGraph) (source : String) (p : List String) : Prop :=
  p ≠ [] ∧ p.getLast? = some source ∧ List.Chain' (flip (edgeR g)) p

theorem paths_sound (g : DiGraph) (source : String) :
    ∀ (L : Nat) (p : List String), p ∈ pathsOfLength g source L →
      RevPath g source p ∧ p.length = L + 1 := by
  intro L
  induction L with
  | zero =>
      intro p hp
      simp only [pathsOfLength, List.mem_singleton] at hp
      subst hp
      exact ⟨⟨by simp, by simp, List.chain'_singleton source⟩, rfl⟩
  | succ n ih =>
      intro p hp
      simp only [pathsOfLength, List.mem_flatMap] at hp
      obtain ⟨q, hq, hpq⟩ := hp
      obtain ⟨⟨hne, hlast, hchain⟩, hlen⟩ := ih q hq
      cases q with
      | nil => exact absurd rfl hne
      | cons v tail =>
          simp only [List.mem_filterMap] at hpq
          obtain ⟨w, hw, hcond⟩ := hpq
          by_cases hct : (v :: tail).contains w
          · rw [if_pos hct] at hcond
            cases hcond
          · rw [if_neg hct] at hcond
            injection hcond with hcond
            subst hcond
            refine ⟨⟨by simp, ?_, ?_⟩, by simpa using hlen⟩
            · rw [List.getLast?_cons_cons]
              exact hlast
            · rw [List.chain'_cons]
              exact ⟨(mem_neighbors g v w).mp hw, hchain⟩

theorem paths_complete (g : DiGraph) (source : String) :
    ∀ rl : List String, rl ≠ [] → rl.Nodup →
      List.Chain' (flip (edgeR g)) rl → rl.getLast? = some source →
      rl ∈ pathsOfLength g source (rl.length - 1) := by
  intro rl
  induction rl with
  | nil => intro h; cases h rfl
  | cons w q ih =>
      intro _ hnd hch hlast
      cases q with
      | nil =>
          simp only [List.getLast?_singleton, Option.some.injEq] at hlast
          subst hlast
          simp [pathsOfLength]
      | cons v tail =>
          have hq : (v :: tail) ∈ pathsOfLength g source ((v :: tail).length - 1) := by
            apply ih (by simp) (List.Nodup.of_cons hnd) (List.chain'_cons.mp hch).2
            rw [List.getLast?_cons_cons] at hlast
            exact hlast
          have hlen : (w :: v :: tail).length - 1 = ((v :: tail).length - 1) + 1 := by
            simp
          rw [hlen]
          simp only [pathsOfLength, List.mem_flatMap]
          refine ⟨v :: tail, hq, ?_⟩
          simp only [List.mem_filterMap]
          refine ⟨w, (mem_neighbors g v w).mpr (List.chain'_cons.mp hch).1, ?_⟩
          rw [if_neg (by simpa using (List.nodup_cons.mp hnd).1)]

theorem chain_pairs_subset (g : DiGraph) :
    ∀ l : List String, List.Chain' (edgeR g) l →
      ∀ pr ∈ l.zip l.tail, pr ∈ g.pairsOf := by
  intro l
  induction l with
  | nil => intro _ pr hpr; simp at hpr
  | cons a l ih =>
      intro hch pr hpr
      cases l with
      | nil => simp at hpr
      | cons b rest =>
          rw [List.tail_cons, List.zip_cons_cons] at hpr
          rcases List.mem_cons.mp hpr with h | h
          · subst h
            exact (has_edge_iff_pairs g a b).mp (List.chain'_cons.mp hch).1
          · exact ih (List.chain'_cons.mp hch).2 pr h

theorem nodup_zip_tail : ∀ l : List String, l.Nodup → (l.zip l.tail).Nodup := by
  intro l
  induction l with
  | nil => intro _; simp
  | cons a l ih =>
      intro hnd
      cases l with
      | nil => simp
      | cons b rest =>
          rw [List.tail_cons, List.zip_cons_cons]
          refine List.nodup_cons.mpr ⟨?_, ?_⟩
          · intro hmem
            exact (List.nodup_cons.mp hnd).1 (List.of_mem_zip hmem).1
          · have := ih (List.nodup_cons.mp hnd).2
            rw [List.tail_cons] at this
            exact this

theorem chain_nodup_length_le (g : DiGraph) (l : List String)
    (hnd : l.Nodup) (hch : List.Chain' (edgeR g) l) :
    l.length ≤ g.edges.length + 1 := by
  cases l with
  | nil => simp
  | cons a t =>
      have hlen : ((a :: t).zip t).length = t.length := by
        simp [List.length_zip]
      have hndz : ((a :: t).zip t).Nodup := by
        have := nodup_zip_tail (a :: t) hnd
        rw [List.tail_cons] at this
        exact this
      have h1 : ((a :: t).zip t).toFinset.card = ((a :: t).zip t).length :=
        List.toFinset_card_of_nodup hndz
      have h2 : ((a :: t).zip t).toFinset ⊆ g.pairsOf.toFinset := by
        intro x hx
        rw [List.mem_toFinset] at hx ⊢
        exact chain_pairs_subset g (a :: t) hch x (by rw [List.tail_cons]; exact hx)
      have h3 := Finset.card_le_card h2
      have h4 : g.pairsOf.toFinset.card ≤ g.pairsOf.length :=
        List.toFinset_card_le g.pairsOf
      have h5 : g.pairsOf.length = g.edges.length := by simp [DiGraph.pairsOf]
      have hbound : t.length ≤ g.edges.length := by
        calc t.length = ((a :: t).zip t).length := hlen.symm
          _ = ((a :: t).zip t).toFinset.card := h1.symm
          _ ≤ g.pairsOf.toFinset.card := h3
          _ ≤ g.pairsOf.length := h4
          _ = g.edges.length := h5
      simp only [List.length_cons]
      omega

theorem exists_simple (g : DiGraph) :
    ∀ (n : Nat) (l : List String), l.length ≤ n → l ≠ [] →
      List.Chain' (edgeR g) l →
      ∃ l', l' ≠ [] ∧ l'.Nodup ∧ List.Chain' (edgeR g) l' ∧
        l'.head? = l.head? ∧ l'.getLast? = l.getLast? ∧ l' ⊆ l := by
  intro n
  induction n with
  | zero =>
      intro l hlen hne _
      cases l with
      | nil => cases hne rfl
      | cons a t => simp at hlen
  | succ n ih =>
      intro l hlen hne hch
      cases l with
      | nil => cases hne rfl
      | cons s rest =>
          by_cases hs : s ∈ rest
          · obtain ⟨a, b, hab⟩ := List.append_of_mem hs
            have hseq : s :: rest = (s :: a) ++ (s :: b) := by
              rw [hab]
              simp
            have hsuf : (s :: b) <:+ (s :: rest) := ⟨s :: a, hseq.symm⟩
            have hch2 : List.Chain' (edgeR g) (s :: b) := hch.suffix hsuf
            have hlen2 : (s :: b).length ≤ n := by
              rw [hab] at hlen
              simp only [List.length_cons, List.length_append] at hlen ⊢
              omega
            obtain ⟨l', h1, h2, h3, h4, h5, h6⟩ := ih (s :: b) hlen2 (by simp) hch2
            refine ⟨l', h1, h2, h3, by simpa using h4, ?_, ?_⟩
            · rw [h5, hseq, List.getLast?_append]
              rcases hx : (s :: b).getLast? with _ | x
              · simp at hx
              · rfl
            · intro x hx
              rcases List.mem_cons.mp (h6 hx) with h | h
              · simp [h]
              · refine List.mem_cons.mpr (Or.inr ?_)
                rw [hab]
                exact List.mem_append.mpr (Or.inr (List.mem_cons.mpr (Or.inr h)))
          · cases rest with
            | nil => exact ⟨[s], by simp, by simp, List.chain'_singleton s, rfl, rfl, by simp⟩
            | cons v tail =>
                have hch' := (List.chain'_cons.mp hch).2
                obtain ⟨r', h1, h2, h3, h4, h5, h6⟩ := ih (v :: tail)
                  (by simp only [List.length_cons] at hlen ⊢; omega) (by simp) hch'
                refine ⟨s :: r', by simp, ?_, ?_, by simp, ?_, ?_⟩
                · exact List.nodup_cons.mpr ⟨fun hmem => hs (h6 hmem), h2⟩
                · refine List.chain'_cons'.mpr ⟨?_, h3⟩
                  intro y hy
                  rw [h4] at hy
                  simp only [List.head?_cons, Option.mem_def, Option.some.injEq] at hy
                  subst hy
                  exact (List.chain'_cons.mp hch).1
                · rw [List.getLast?_cons_cons]
                  cases hr : r' with
                  | nil => exact absurd hr h1
                  | cons rh rt =>
                      rw [hr] at h5
                      rw [List.getLast?_cons_cons]
                      exact h5
                · intro x hx
                  rcases List.mem_cons.mp hx with h | h
                  · simp [h]
                  · exact List.mem_cons.mpr (Or.inr (h6 h))

theorem searchUpTo_sound (g : DiGraph) (source target : String) :
    ∀ (n : Nat) (r : List String), searchUpTo g source target n = some r →
      ∃ L p, p ∈ pathsOfLength g source L ∧ p.head? = some target ∧
        r = p.reverse := by
  intro n
  induction n with
  | zero => intro r h; simp [searchUpTo] at h
  | succ n ih =>
      intro r h
      rw [searchUpTo] at h
      cases hs : searchUpTo g source target n with
      | some r' =>
          rw [hs] at h
          injection h with h
          subst h
          exact ih r' hs
      | none =>
          rw [hs] at h
          simp only [Option.map_eq_some'] at h
          obtain ⟨p, hfind, hrev⟩ := h
          refine ⟨n, p, List.mem_of_find?_eq_some hfind, ?_, hrev.symm⟩
          simpa using List.find?_some hfind

theorem searchUpTo_complete (g : DiGraph) (source target : String) :
    ∀ (n L : Nat) (p : List String), L < n → p ∈ pathsOfLength g source L →
      p.head? = some target → (searchUpTo g source target n).isSome := by
  intro n
  induction n with
  | zero => intro L p hL _ _; exact absurd hL (Nat.not_lt_zero L)
  | succ n ih =>
      intro L p hL hmem hhead
      rw [searchUpTo]
      cases hs : searchUpTo g source target n with
      | some r => simp
      | none =>
          by_cases hLn : L < n
          · have := ih L p hLn hmem hhead
            rw [hs] at this
            simp at this
          · have hLeq : L = n := by omega
            subst hLeq
            rcases hfind : (pathsOfLength g source L).find?
                (fun p => p.head? == some target) with _ | q
            · have : ((pathsOfLength g source L).find?
                  (fun p => p.head? == some target)).isSome :=
                List.find?_isSome.mpr ⟨p, hmem, by simp [hhead]⟩
              rw [hfind] at this
              simp at this
            · simp [hfind]

/-- Connectivity in the topology: both endpoints are nodes and some chain of
edges leads from the source to the destination. -/
def Connected (g : DiGraph) (s d : String) : Prop :=
  s ∈ g.nodes ∧ d ∈ g.nodes ∧
    ∃ l, l ≠ [] ∧ isChain g l = true ∧ l.head? = some s ∧ l.getLast? = some d

/-- C8: under the default unweighted-shortest-path routing algorithm, every
connected pair (source, dest) of the topology gets a route that starts at
the source, ends at the destination, and whose consecutive entries are all
joined by edges of the topology. -/
theorem route_validity_C8 (net : Network) (s d : String)
    (halgo : net.routing_algo = shortest_path)
    (hconn : Connected net.network s d) :
    ∃ r, net.get_route s d = .ok r ∧ r.head? = some s ∧ r.getLast? = some d ∧
      isChain net.network r = true := by
  obtain ⟨hsn, hdn, l, hlne, hlch, hlh, hll⟩ := hconn
  obtain ⟨l', h1, h2, h3, h4, h5, h6⟩ :=
    exists_simple net.network l.length l (le_refl _) hlne
      ((isChain_iff net.network l).mp hlch)
  have hrl_ne : l'.reverse ≠ [] := by simpa using h1
  have hrl_nd : l'.reverse.Nodup := List.nodup_reverse.mpr h2
  have hrl_ch : List.Chain' (flip (edgeR net.network)) l'.reverse :=
    List.chain'_reverse.mpr h3
  have hrl_last : l'.reverse.getLast? = some s := by
    rw [List.getLast?_reverse, h4, hlh]
  have hmem := paths_complete net.network s l'.reverse hrl_ne hrl_nd hrl_ch hrl_last
  have hhead : l'.reverse.head? = some d := by
    rw [List.head?_reverse, h5, hll]
  have hbound : l'.length ≤ net.network.edges.length + 1 :=
    chain_nodup_length_le net.network l' h2 h3
  have hLlt : l'.reverse.length - 1 < net.network.edges.length + 2 := by
    rw [List.length_reverse]
    omega
  have hsome := searchUpTo_complete net.network s d (net.network.edges.length + 2)
    (l'.reverse.length - 1) l'.reverse hLlt hmem hhead
  rcases hres : searchUpTo net.network s d (net.network.edges.length + 2) with _ | r
  · rw [hres] at hsome
    simp at hsome
  · obtain ⟨L, p, hpmem, hphead, hrp⟩ := searchUpTo_sound net.network s d _ r hres
    obtain ⟨⟨hpne, hplast, hpch⟩, hplen⟩ := paths_sound net.network s L p hpmem
    refine ⟨r, ?_, ?_, ?_, ?_⟩
    · unfold Network.get_route
      rw [halgo]
      unfold shortest_path
      rw [if_pos ⟨hsn, hdn⟩, hres]
    · rw [hrp, List.head?_reverse]
      exact hplast
    · rw [hrp, List.getLast?_reverse]
      exact hphead
    · rw [hrp]
      exact (isChain_iff net.network p.reverse).mpr (List.chain'_reverse.mpr hpch)

theorem route_validity_C8_witness :
    ∃ r, netABC.get_route "A" "C" = Except.ok r ∧ r.head? = some "A" ∧
      r.getLast? = some "C" ∧ isChain netABC.network r = true :=
  route_validity_C8 netABC "A" "C" rfl
    ⟨by decide, by decide, ["A", "B", "C"], by decide, by decide, by decide, by decide⟩

/-! ## C9: the TTL invariant -/

/-- Did the `try` block raise (true) or return a trace (false)? -/
def tryStatus : Network × Except NetError (List Effect) → Bool
  | (_, .error _) => true
  | (_, .ok _) => false

theorem quantumPrepass_ttl (net : Network) (p : Packet) (t : Option Nat) :
    quantumPrepass net { p with TTL := t } = quantumPrepass net p := by
  cases p
  rfl

theorem tryBody_ttl (net : Network) (p : Packet) (t : Option Nat) :
    tryStatus (tryBody net { p with TTL := t }) = tryStatus (tryBody net p) := by
  cases p with
  | mk s r pr pl pt ttl rt =>
    show tryStatus (tryBody net ⟨s, r, pr, pl, pt, t, rt⟩)
        = tryStatus (tryBody net ⟨s, r, pr, pl, pt, ttl, rt⟩)
    have hcr : computeRoute net ⟨s, r, pr, pl, pt, t, rt⟩
        = computeRoute net ⟨s, r, pr, pl, pt, ttl, rt⟩ := rfl
    cases hroute : computeRoute net ⟨s, r, pr, pl, pt, ttl, rt⟩ with
    | error e => simp only [tryBody, hcr, hroute]
    | ok route =>
      simp only [tryBody, hcr, hroute]
      by_cases h1 : route.length < 2
      · rw [if_pos h1, if_pos h1]
      · rw [if_neg h1, if_neg h1]
        by_cases h2 : route.length = 2
        · rw [if_pos h2, if_pos h2]
          by_cases h3 : pr ≠ RELAY
          · rw [if_pos h3, if_pos h3]
            by_cases h4 : pr = REC_EPR
            · rw [if_pos h4, if_pos h4]
              cases hgh : net.get_host s with
              | none => rfl
              | some hs =>
                cases hqid : qidOfPayload pl with
                | error e => rfl
                | ok qopt =>
                  simp only []
                  by_cases h5 : memARP (insertARP net.ARP s (hs.add_epr r qopt).1) r = true
                  · rw [if_pos h5, if_pos h5]
                    rfl
                  · rw [if_neg h5, if_neg h5]
            · rw [if_neg h4, if_neg h4]
              by_cases h6 : memARP net.ARP r = true
              · rw [if_pos h6, if_pos h6]
                rfl
              · rw [if_neg h6, if_neg h6]
          · rw [if_neg h3, if_neg h3]
        · rw [if_neg h2, if_neg h2]
          by_cases h4 : pr = REC_EPR
          · rw [if_pos h4, if_pos h4]
          · rw [if_neg h4, if_neg h4]
            by_cases h6 : memARP net.ARP (route[1]!) = true
            · rw [if_pos h6, if_pos h6]
              rfl
            · rw [if_neg h6, if_neg h6]

/-- A dispatch iteration drops its packet exactly when the prepass escaped
or the `try` block raised. -/
theorem dropped_iff (net : Network) (p : Packet) :
    droppedResult (net._process_packet p)
      = (match quantumPrepass net p with
         | .error _ => true
         | .ok _ => tryStatus (tryBody net p)) := by
  unfold Network._process_packet
  cases hpre : quantumPrepass net p with
  | error e => rfl
  | ok qeffs =>
      rcases htb : tryBody net p with ⟨net₂, res⟩
      cases res with
      | ok effs =>
          simp only [htb, tryStatus, droppedResult, List.any_append,
            prepass_no_logError net p qeffs hpre,
            tryBody_no_logError net p net₂ effs htb, Bool.or_self]
      | error e =>
          simp [htb, tryStatus, droppedResult, List.any_append,
            prepass_no_logError net p qeffs hpre, Effect.isLogError]

/-- C9: relay envelopes and the TTL.  First, the encoder at its default ttl
always stamps TTL 10 on the envelope.  Second, the loop never rewrites a
TTL: every payload handed to a peer carries either the dequeued packet's own
TTL field, the TTL of its nested payload, or the freshly stamped 10.  Third,
whether a packet is dropped (or even crashes the worker) never depends on
its TTL field, so no packet is ever dropped because of its TTL. -/
theorem ttl_invariant_C9 :
    (∀ (net : Network) (route : List String) (p : Packet),
        (net._encode route p encode_default_ttl).TTL = some 10) ∧
    (∀ (net : Network) (p : Packet) (net' : Network) (effs : List Effect),
        net._process_packet p = .ok (net', effs) →
        ∀ d pl, Effect.deliver d pl ∈ effs →
          pl.ttlField = p.TTL ∨ pl.ttlField = p.payload.ttlField ∨
          pl.ttlField = some 10) ∧
    (∀ (net : Network) (p : Packet) (t₁ t₂ : Option Nat),
        droppedResult (net._process_packet { p with TTL := t₁ })
          = droppedResult (net._process_packet { p with TTL := t₂ })) := by
  refine ⟨fun net route p => rfl, ?_, ?_⟩
  · intro net p net' effs hok d pl hmem
    unfold Network._process_packet at hok
    cases hpre : quantumPrepass net p with
    | error e =>
        rw [hpre] at hok
        exact absurd hok (by simp)
    | ok qeffs =>
        rw [hpre] at hok
        rcases htb : tryBody net p with ⟨net₂, res⟩
        rw [htb] at hok
        cases res with
        | error e =>
            simp only [Except.ok.injEq, Prod.mk.injEq] at hok
            obtain ⟨-, hEffs⟩ := hok
            subst hEffs
            rcases List.mem_append.mp hmem with hm | hm
            · exact absurd hm (prepass_no_deliver net p qeffs hpre d pl)
            · simp at hm
        | ok effs₂ =>
            simp only [Except.ok.injEq, Prod.mk.injEq] at hok
            obtain ⟨-, hEffs⟩ := hok
            subst hEffs
            rcases List.mem_append.mp hmem with hm | hm
            · exact absurd hm (prepass_no_deliver net p qeffs hpre d pl)
            · rcases tryBody_ok_cases net p net₂ effs₂ htb with
                h' | h' | ⟨q, h'⟩ | ⟨rr, q, h'⟩ | ⟨rr, -, h'⟩ <;> subst h'
              · rw [List.mem_singleton] at hm
                cases hm
                exact Or.inl rfl
              · rw [List.mem_singleton] at hm
                cases hm
                exact Or.inr (Or.inl rfl)
              · rcases List.mem_cons.mp hm with hm | hm
                · cases hm
                · rw [List.mem_singleton] at hm
                  cases hm
                  exact Or.inl rfl
              · rw [List.mem_singleton] at hm
                cases hm
              · rw [List.mem_singleton] at hm
                cases hm
                exact Or.inr (Or.inr rfl)
  · intro net p t₁ t₂
    rw [dropped_iff net { p with TTL := t₁ }, dropped_iff net { p with TTL := t₂ },
        quantumPrepass_ttl net p t₁, quantumPrepass_ttl net p t₂]
    cases quantumPrepass net p with
    | error e => rfl
    | ok q => rw [tryBody_ttl net p t₁, tryBody_ttl net p t₂]

theorem ttl_invariant_C9_witness :
    (Payload.ofPacket goodPkt).ttlField = goodPkt.TTL ∨
    (Payload.ofPacket goodPkt).ttlField = goodPkt.payload.ttlField ∨
    (Payload.ofPacket goodPkt).ttlField = some 10 :=
  ttl_invariant_C9.2.1 netABC goodPkt netABC
    [Effect.deliver "B" (Payload.ofPacket goodPkt)] (by rfl) "B"
    (Payload.ofPacket goodPkt) (by simp)

/-! ## C10: sharesResource and unregistered peers -/

/-- C10 counterexample: with A registered (holding no resources) and B
unregistered, `shares_epr A B` returns `some false` — a boolean, not a
fault — because the sender-side probe fails and the `and` short-circuits
before the absent receiver handle is dereferenced.  This refutes the claim
that an absent peer id always makes the operation fault instead of
returning false. -/
theorem shares_epr_C10_counterexample :
    (Network.init.add_host hostA).get_host "B" = Option.none ∧
    (Network.init.add_host hostA).shares_epr "A" "B" = some false := by
  decide

/-- C10 amended: `shares_epr` returns a boolean whenever both peers are
registered; an unregistered sender always faults (an absent handle is
dereferenced); an unregistered receiver faults only when the sender's local
probe for the receiver succeeds, and otherwise the call returns `false`
because the conjunction short-circuits. -/
theorem shares_epr_C10_amended (net : Network) (a b : String) :
    (∀ ha hb, net.get_host a = some ha → net.get_host b = some hb →
      net.shares_epr a b = some (ha.shares_epr b && hb.shares_epr a)) ∧
    (net.get_host a = Option.none → net.shares_epr a b = Option.none) ∧
    (∀ ha, net.get_host a = some ha → net.get_host b = Option.none →
      net.shares_epr a b = (if ha.shares_epr b then Option.none else some false)) := by
  refine ⟨?_, ?_, ?_⟩
  · intro ha hb hha hhb
    simp only [Network.shares_epr, hha, hhb]
    by_cases hp : ha.shares_epr b <;> simp [hp]
  · intro hha
    simp [Network.shares_epr, hha]
  · intro ha hha hhb
    simp only [Network.shares_epr, hha, hhb]

theorem shares_epr_C10_amended_witness :
    netABC.shares_epr "A" "B" = some false := by
  have h := (shares_epr_C10_amended netABC "A" "B").1 hostA hostB
    (by decide) (by decide)
  rw [h]
  decide

theorem remove_host_frame_C7_witness :
    ((Network.init.add_host ⟨"A", [], [], 0⟩).remove_host ⟨"A", [], [], 0⟩).network
        = (Network.init.add_host ⟨"A", [], [], 0⟩).network ∧
    ((Network.init.add_host ⟨"A", [], [], 0⟩).remove_host ⟨"B", [], [], 0⟩)
        = Network.init.add_host ⟨"A", [], [], 0⟩ := by
  have h1 := remove_host_frame_C7 (Network.init.add_host ⟨"A", [], [], 0⟩) ⟨"A", [], [], 0⟩
  have h2 := remove_host_frame_C7 (Network.init.add_host ⟨"A", [], [], 0⟩) ⟨"B", [], [], 0⟩
  exact ⟨h1.1, h2.2.2.2 (by decide)⟩
